import Mathlib

/-!
Shallow embedding of the `isgj/tide` HTTP server core: router trie,
middleware continuation chain, per-request context and the `Service`
dispatch boundary (`src/server.rs`).  The router, middleware and context
modules are not part of the provided sources; their definitions below are
modelled from the specification, while the `Server` / `Service` layer is
translated from `src/server.rs` directly.
-/

namespace Tide

/-- HTTP method set used by the router (spec §6: at minimum
GET/POST/PUT/DELETE/PATCH/HEAD/OPTIONS, each an independent slot per node). -/
inductive Method where
  | GET | POST | PUT | DELETE | PATCH | HEAD | OPTIONS
deriving DecidableEq, Repr

/-- Modelled from the spec: the per-HTTP-method table of registered handlers
held at each trie node ("per-HTTP-method table of registered handlers at that
node", spec §3); one independent slot per method. -/
structure MethodMap (H : Type) where
  get : Option H := none
  post : Option H := none
  put : Option H := none
  delete : Option H := none
  patch : Option H := none
  head : Option H := none
  options : Option H := none
deriving DecidableEq, Repr

/-- The empty method table. -/
def MethodMap.empty {H : Type} : MethodMap H := {}

/-- Look up the handler slot for a method. -/
def MethodMap.lookup {H : Type} (m : Method) (t : MethodMap H) : Option H :=
  match m with
  | .GET => t.get
  | .POST => t.post
  | .PUT => t.put
  | .DELETE => t.delete
  | .PATCH => t.patch
  | .HEAD => t.head
  | .OPTIONS => t.options

/-- Overwrite the handler slot for a method. -/
def MethodMap.set {H : Type} (m : Method) (h : H) (t : MethodMap H) : MethodMap H :=
  match m with
  | .GET => { t with get := some h }
  | .POST => { t with post := some h }
  | .PUT => { t with put := some h }
  | .DELETE => { t with delete := some h }
  | .PATCH => { t with patch := some h }
  | .HEAD => { t with head := some h }
  | .OPTIONS => { t with options := some h }

/-- Modelled from the spec: one segment of a registered path pattern
(spec §6 grammar): a concrete literal, a one-segment wildcard `:name` / `:`
(optional capture name), or a catch-all `*name` / `*`. -/
inductive PatSeg where
  | concrete (s : String)
  | wildcard (name : Option String)
  | catchAll (name : Option String)
deriving DecidableEq, Repr

/-- Modelled from the spec: a router trie node (spec §3): a concrete-children
mapping (segment string to child, keys unique — kept as an association list
sorted by key), at most one named-wildcard child, at most one catch-all child,
and a per-method handler table. -/
inductive Node (H : Type) where
  | mk (concrete : List (String × Node H))
       (wildcard : Option (Option String × Node H))
       (catchAll : Option (Option String × Node H))
       (handlers : MethodMap H)

/-- Concrete children of a node. -/
def Node.concrete {H : Type} : Node H → List (String × Node H)
  | .mk c _ _ _ => c

/-- The optional named-wildcard child of a node. -/
def Node.wildcard {H : Type} : Node H → Option (Option String × Node H)
  | .mk _ w _ _ => w

/-- The optional catch-all child of a node. -/
def Node.catchAll {H : Type} : Node H → Option (Option String × Node H)
  | .mk _ _ ca _ => ca

/-- The per-method handler table of a node. -/
def Node.handlers {H : Type} : Node H → MethodMap H
  | .mk _ _ _ hs => hs

/-- The empty trie node: no children, no handlers (`Router::new`). -/
def emptyNode {H : Type} : Node H := .mk [] none none MethodMap.empty

/-- Look up a concrete child by its segment key. -/
def lookupC {H : Type} (s : String) : List (String × Node H) → Option (Node H)
  | [] => none
  | (s', c) :: rest => if s = s' then some c else lookupC s rest

/-- Insert or replace the concrete child for key `s`, keeping the
association list sorted by key (canonical representation of the
"segment string → child node" mapping of spec §3). -/
def setC {H : Type} (s : String) (c : Node H) : List (String × Node H) → List (String × Node H)
  | [] => [(s, c)]
  | (s', c') :: rest =>
    if s = s' then (s, c) :: rest
    else if s < s' then (s, c) :: (s', c') :: rest
    else (s', c') :: setC s c rest

/-- Parameter captured by an optionally named pattern segment: a named
wildcard/catch-all captures `name → value`, an anonymous one captures
nothing (spec §4.1). -/
def capOf (nm : Option String) (v : String) : List (String × String) :=
  match nm with
  | some n => [(n, v)]
  | none => []

/-- Modelled from the spec: outcome of route matching (spec §6): a handler
plus captured params (success), "no route" (no structural match), or
"method not allowed" (path matched a node but not the method). -/
inductive RouteResult (H : Type) where
  | found (h : H) (params : List (String × String))
  | noRoute
  | methodNotAllowed
deriving DecidableEq, Repr

/-- Whether a route result is a success. -/
def RouteResult.isFound {H : Type} : RouteResult H → Bool
  | .found _ _ => true
  | _ => false

/-- Modelled from the spec: the matching walk (spec §4.1).  One segment at a
time with strict precedence at each node: exact concrete child first, else a
wildcard child consumes one segment (capturing if named), else a catch-all
child binds the joined remaining path and terminates; otherwise "no route".
Once segments are exhausted the node must carry a handler for the method
(else a catch-all child still matches the empty tail, since a catch-all
matches zero or more remaining segments); otherwise "method not allowed". -/
def routeAux {H : Type} (m : Method) : Node H → List String → List (String × String) → RouteResult H
  | t, [], ps =>
    match MethodMap.lookup m t.handlers with
    | some h => .found h ps
    | none =>
      match t.catchAll with
      | some (nm, c) =>
        match MethodMap.lookup m c.handlers with
        | some h => .found h (ps ++ capOf nm "")
        | none => .methodNotAllowed
      | none => .methodNotAllowed
  | t, seg :: rest, ps =>
    match lookupC seg t.concrete with
    | some c => routeAux m c rest ps
    | none =>
      match t.wildcard with
      | some (nm, c) => routeAux m c rest (ps ++ capOf nm seg)
      | none =>
        match t.catchAll with
        | some (nm, c) =>
          match MethodMap.lookup m c.handlers with
          | some h => .found h (ps ++ capOf nm (String.intercalate "/" (seg :: rest)))
          | none => .methodNotAllowed
        | none => .noRoute

/-- Split a request path into its non-empty `/`-separated segments
(spec §4.1: "split the incoming path into segments on `/`"; a path is
"zero or many segments, i.e. non-empty strings separated by `/`"). -/
def segsOf (path : String) : List String :=
  (path.splitOn "/").filter (fun s => s ≠ "")

/-- Modelled from the spec: `Router::route` — match a segment list against
the trie starting with no captured params. -/
def route {H : Type} (m : Method) (t : Node H) (segs : List String) : RouteResult H :=
  routeAux m t segs []

/-- Route a raw path string: split into segments, then match. -/
def routePath {H : Type} (t : Node H) (path : String) (m : Method) : RouteResult H :=
  route m t (segsOf path)

/-- Structural match: does the path reach some node of the trie, ignoring
methods entirely (spec §6: "no route" means "no structural match for the
path at all")?  Mirrors the precedence walk of `routeAux`. -/
def matchesPath {H : Type} : Node H → List String → Bool
  | _, [] => true
  | t, seg :: rest =>
    match lookupC seg t.concrete with
    | some c => matchesPath c rest
    | none =>
      match t.wildcard with
      | some (_, c) => matchesPath c rest
      | none =>
        match t.catchAll with
        | some _ => true
        | none => false

/-- Modelled from the spec: update the handler table slot for a method
(`register`, spec §4.1): an empty slot is filled; re-registering the same
handler is a no-op; a different handler in the slot is a construction-time
ambiguity error, reported, not silently overwritten. -/
def setHandler {H : Type} [DecidableEq H] (m : Method) (h : H) (t : MethodMap H) :
    Except Unit (MethodMap H) :=
  match MethodMap.lookup m t with
  | none => .ok (t.set m h)
  | some h' => if h' = h then .ok t else .error ()

/-- Modelled from the spec: `Router::register` — walk the pattern segments
from a node, creating intermediate nodes as needed, and install the handler
at the final node's method table (spec §4.1).  Placing a wildcard or
catch-all with a different capture name at a structural position that
already holds one is rejected as a registration-time ambiguity (spec §9). -/
def registerAux {H : Type} [DecidableEq H] : List PatSeg → Method → H → Node H → Except Unit (Node H)
  | [], m, h, t =>
    match setHandler m h t.handlers with
    | .error e => .error e
    | .ok hs => .ok (.mk t.concrete t.wildcard t.catchAll hs)
  | .concrete s :: rest, m, h, t =>
    match registerAux rest m h ((lookupC s t.concrete).getD emptyNode) with
    | .error e => .error e
    | .ok c' => .ok (.mk (setC s c' t.concrete) t.wildcard t.catchAll t.handlers)
  | .wildcard nm :: rest, m, h, t =>
    match t.wildcard with
    | none =>
      match registerAux rest m h emptyNode with
      | .error e => .error e
      | .ok c' => .ok (.mk t.concrete (some (nm, c')) t.catchAll t.handlers)
    | some (nm', c) =>
      if nm' = nm then
        match registerAux rest m h c with
        | .error e => .error e
        | .ok c' => .ok (.mk t.concrete (some (nm, c')) t.catchAll t.handlers)
      else .error ()
  | .catchAll nm :: rest, m, h, t =>
    match t.catchAll with
    | none =>
      match registerAux rest m h emptyNode with
      | .error e => .error e
      | .ok c' => .ok (.mk t.concrete t.wildcard (some (nm, c')) t.handlers)
    | some (nm', c) =>
      if nm' = nm then
        match registerAux rest m h c with
        | .error e => .error e
        | .ok c' => .ok (.mk t.concrete t.wildcard (some (nm, c')) t.handlers)
      else .error ()

/-- An incoming HTTP request, as consumed by `Service::respond`
(`src/server.rs:275-277`): a method, a URI path, and an opaque body. -/
structure Request where
  method : Method
  path : String
  body : String
deriving DecidableEq, Repr

/-- An HTTP response: a status code and a body. -/
structure Response where
  status : Nat
  body : String
deriving DecidableEq, Repr

/-- Per-request context as constructed by `Service::respond`
(`src/server.rs:285`, `Context::new(state, params)`): the shared application
state and the params extracted by the router.  The request itself is passed
separately to `Next::run` (`src/server.rs:287`). -/
structure Context (State : Type) where
  state : State
  params : List (String × String)
deriving DecidableEq, Repr

/-- A handler ("endpoint"): consume the request and the context, produce a
result (spec §3). -/
def Endpoint (State R : Type) : Type :=
  Request → Context State → R

/-- A middleware: consume the request, the context and a continuation,
produce a result (spec §3); it may call the continuation or short-circuit. -/
def Middleware (State R : Type) : Type :=
  Request → Context State → (Request → Context State → R) → R

/-- Modelled from the spec: the continuation `Next` (spec §3): an immutable
view over the remaining middleware slice plus the terminal endpoint. -/
structure Next (State R : Type) where
  endpoint : Endpoint State R
  rest : List (Middleware State R)

/-- Modelled from the spec: driving a `Next` (spec §4.2): invoke the head of
the remaining slice with a continuation over one fewer element, or — at
exhaustion — make the terminal call into the endpoint.  Following
`src/server.rs:287`, the request is passed to `run` alongside the context. -/
def Next.run {State R : Type} : Next State R → Request → Context State → R
  | ⟨ep, []⟩, req, cx => ep req cx
  | ⟨ep, mw :: mws⟩, req, cx => mw req cx (fun r c => Next.run ⟨ep, mws⟩ r c)

/-- Modelled from the spec: `Selection::into_components` — convert the
routing outcome into (endpoint, params), substituting a synthetic
not-found (404-class) or method-not-allowed (4xx-class) endpoint for the
two failure conditions (spec §4.4, §6, §7). -/
def intoComponents {State : Type} (r : RouteResult (Endpoint State Response)) :
    Endpoint State Response × List (String × String) :=
  match r with
  | .found h ps => (h, ps)
  | .noRoute => (fun _ _ => ⟨404, ""⟩, [])
  | .methodNotAllowed => (fun _ _ => ⟨405, ""⟩, [])

/-- A Tide server under construction (`src/server.rs:132-136`): a router,
a middleware list, and the application state. -/
structure Server (State : Type) where
  router : Node (Endpoint State Response)
  middleware : List (Middleware State Response)
  state : State

/-- `Server::with_state` (`src/server.rs:153-159`): a fresh router, no
middleware, the given state. -/
def Server.withState {State : Type} (state : State) : Server State :=
  { router := emptyNode, middleware := [], state := state }

/-- `Server::new` (`src/server.rs:140-142`): `with_state(())`. -/
def Server.new : Server Unit :=
  Server.withState ()

/-- `Server::default` (`src/server.rs:145-149`): `Server::new()`. -/
def Server.defaultServer : Server Unit :=
  Server.new

/-- `Server::middleware` (`src/server.rs:224-227`): push one middleware at
the end of the list. -/
def Server.addMiddleware {State : Type} (app : Server State) (m : Middleware State Response) :
    Server State :=
  { app with middleware := app.middleware ++ [m] }

/-- The frozen service handle (`src/server.rs:260-264`): shared router,
shared state, shared middleware list. -/
structure Service (State : Type) where
  router : Node (Endpoint State Response)
  state : State
  middleware : List (Middleware State Response)

/-- `Server::into_service` (`src/server.rs:233-239`). -/
def Server.intoService {State : Type} (app : Server State) : Service State :=
  { router := app.router, state := app.state, middleware := app.middleware }

/-- `Clone` for `Service` (`src/server.rs:258`, `#[derive(Clone)]`): each
`Arc` field is cloned, yielding a handle over the same shared data. -/
def Service.clone {State : Type} (svc : Service State) : Service State :=
  { router := svc.router, state := svc.state, middleware := svc.middleware }

/-- `Service::respond` (`src/server.rs:275-292`): extract path and method
from the request, route, build the context from the shared state and the
extracted params, build the initial `Next` over the full middleware list
with the matched endpoint as terminal, and drive it on the request. -/
def Service.respond {State : Type} (svc : Service State) (req : Request) : Response :=
  let path := req.path
  let method := req.method
  let comps := intoComponents (route method svc.router (segsOf path))
  let endpoint := comps.1
  let params := comps.2
  let cx : Context State := { state := svc.state, params := params }
  let next : Next State Response := { endpoint := endpoint, rest := svc.middleware }
  next.run req cx

/-- The context value constructed inside `Service::respond`
(`src/server.rs:284-285`): built from the shared state and the params the
router extracted from the request's path and method — and from nothing
else. -/
def respondContext {State : Type} (svc : Service State) (req : Request) : Context State :=
  { state := svc.state
    params := (intoComponents (route req.method svc.router (segsOf req.path))).2 }

/-- Dispatch pipeline written out as the (amended) specification words it:
route once on path and method; a fresh context from the shared state and
the extracted params; the initial continuation over the full middleware
list with the matched endpoint as terminal; drive it to completion on the
request and the context. -/
def dispatchSpec {State : Type} (svc : Service State) (req : Request) : Response :=
  let routed := intoComponents (routePath svc.router req.path req.method)
  Next.run { endpoint := routed.1, rest := svc.middleware } req
    { state := svc.state, params := routed.2 }

/-- Serve a list of requests sequentially, threading the service value
through every call so that any mutation of the service would be
observable; `respond` takes the receiver by shared reference and writes
none of its fields, so each step returns the service unchanged. -/
def serveThread {State : Type} : Service State → List Request → List Response × Service State
  | svc, [] => ([], svc)
  | svc, req :: reqs =>
    let r := svc.respond req
    let rest := serveThread svc reqs
    (r :: rest.1, rest.2)

/-- Trace events used to observe middleware execution order: a middleware's
pre-processing step, the terminal handler, a middleware's post-processing
step, and a short-circuit response produced without calling the
continuation. -/
inductive TEvent where
  | pre (i : Nat) | handle | post (i : Nat) | short
deriving DecidableEq, Repr

/-- Instrumented middleware number `i`: record its pre-step, delegate to the
continuation exactly once, then record its post-step. -/
def traceMw (i : Nat) : Middleware Unit (List TEvent) :=
  fun req cx next => TEvent.pre i :: (next req cx ++ [TEvent.post i])

/-- Instrumented terminal handler: record that the handler ran. -/
def traceHandler : Endpoint Unit (List TEvent) :=
  fun _ _ => [TEvent.handle]

/-- Instrumented short-circuiting middleware: produce a response directly,
never invoking its continuation. -/
def shortMw : Middleware Unit (List TEvent) :=
  fun _ _ _ => [TEvent.short]

/-- The `n` consecutive indices starting at `s`. -/
def idxFrom (s : Nat) : Nat → List Nat
  | 0 => []
  | n + 1 => s :: idxFrom (s + 1) n

/-- A leaf node carrying only a GET handler. -/
def leafGET (n : Nat) : Node Nat :=
  .mk [] none none { get := some n }

/-- A node with a concrete child, a named wildcard child and a named
catch-all child. -/
def nodeCWR : Node Nat :=
  .mk [("a", leafGET 1)] (some (some "w", leafGET 2)) (some (some "r", leafGET 3))
    MethodMap.empty

/-- A node with a named wildcard child and a named catch-all child. -/
def nodeWR : Node Nat :=
  .mk [] (some (some "w", leafGET 2)) (some (some "r", leafGET 3)) MethodMap.empty

/-- A node with only a named catch-all child. -/
def nodeR : Node Nat :=
  .mk [] none (some (some "r", leafGET 3)) MethodMap.empty

/-- A trivial service over unit state with no routes and no middleware. -/
def svcUnit : Service Unit :=
  { router := emptyNode, state := (), middleware := [] }

/-- Modelled from the spec: `Route::nest` (spec §4.1 `nest`): walk to the
node at the given path, creating intermediate nodes as needed exactly as
registration does, and apply the nested registration function there. -/
def nestAt {H : Type} (f : Node H → Except Unit (Node H)) :
    List PatSeg → Node H → Except Unit (Node H)
  | [], t => f t
  | .concrete s :: rest, t =>
    match nestAt f rest ((lookupC s t.concrete).getD emptyNode) with
    | .error e => .error e
    | .ok c' => .ok (.mk (setC s c' t.concrete) t.wildcard t.catchAll t.handlers)
  | .wildcard nm :: rest, t =>
    match t.wildcard with
    | none =>
      match nestAt f rest emptyNode with
      | .error e => .error e
      | .ok c' => .ok (.mk t.concrete (some (nm, c')) t.catchAll t.handlers)
    | some (nm', c) =>
      if nm' = nm then
        match nestAt f rest c with
        | .error e => .error e
        | .ok c' => .ok (.mk t.concrete (some (nm, c')) t.catchAll t.handlers)
      else .error ()
  | .catchAll nm :: rest, t =>
    match t.catchAll with
    | none =>
      match nestAt f rest emptyNode with
      | .error e => .error e
      | .ok c' => .ok (.mk t.concrete t.wildcard (some (nm, c')) t.handlers)
    | some (nm', c) =>
      if nm' = nm then
        match nestAt f rest c with
        | .error e => .error e
        | .ok c' => .ok (.mk t.concrete t.wildcard (some (nm, c')) t.handlers)
      else .error ()

/-- A request-path segment list matches the prefix of a pattern (the part
before a catch-all) with the given captures: a concrete pattern segment
matches the equal request segment, a named wildcard matches any one segment
capturing it, an anonymous wildcard matches any one segment capturing
nothing. -/
inductive PrefixMatch : List PatSeg → List String → List (String × String) → Prop where
  | nil : PrefixMatch [] [] []
  | concrete (s : String) {ps : List PatSeg} {segs : List String}
      {caps : List (String × String)} :
      PrefixMatch ps segs caps → PrefixMatch (.concrete s :: ps) (s :: segs) caps
  | wildNamed (n seg : String) {ps : List PatSeg} {segs : List String}
      {caps : List (String × String)} :
      PrefixMatch ps segs caps →
        PrefixMatch (.wildcard (some n) :: ps) (seg :: segs) ((n, seg) :: caps)
  | wildAnon (seg : String) {ps : List PatSeg} {segs : List String}
      {caps : List (String × String)} :
      PrefixMatch ps segs caps → PrefixMatch (.wildcard none :: ps) (seg :: segs) caps

/-- The linear trie built by registering a single pattern into an empty
router: one spine of nodes, the handler at the end. -/
def mkLinear {H : Type} (m : Method) (h : H) : List PatSeg → Node H
  | [] => .mk [] none none (MethodMap.empty.set m h)
  | .concrete s :: rest => .mk [(s, mkLinear m h rest)] none none MethodMap.empty
  | .wildcard nm :: rest => .mk [] (some (nm, mkLinear m h rest)) none MethodMap.empty
  | .catchAll nm :: rest => .mk [] none (some (nm, mkLinear m h rest)) MethodMap.empty

/-- Sequence two fallible registration steps: an error in the first makes
the whole sequence fail. -/
def andThen {A : Type} (x : Except Unit A) (f : A → Except Unit A) : Except Unit A :=
  match x with
  | .error e => .error e
  | .ok a => f a

/-- Apply a fallible update to one field of a node, given the field's
reader and writer. -/
def updField {H A : Type} (set : Node H → A → Node H) (get : Node H → A)
    (g : A → Except Unit A) (t : Node H) : Except Unit (Node H) :=
  match g (get t) with
  | .error e => .error e
  | .ok a => .ok (set t a)

/-- Write the handlers field of a node. -/
def putHandlers {H : Type} (t : Node H) (hs : MethodMap H) : Node H :=
  .mk t.concrete t.wildcard t.catchAll hs

/-- Write the concrete-children field of a node. -/
def putConcrete {H : Type} (t : Node H) (l : List (String × Node H)) : Node H :=
  .mk l t.wildcard t.catchAll t.handlers

/-- Write the wildcard-child field of a node. -/
def putWildcard {H : Type} (t : Node H) (w : Option (Option String × Node H)) : Node H :=
  .mk t.concrete w t.catchAll t.handlers

/-- Write the catch-all-child field of a node. -/
def putCatchAll {H : Type} (t : Node H) (ca : Option (Option String × Node H)) : Node H :=
  .mk t.concrete t.wildcard ca t.handlers

/-- Update the concrete child at key `s` by `k`, starting from an empty
node when the key is not present. -/
def concUpd {H : Type} (s : String) (k : Node H → Except Unit (Node H))
    (l : List (String × Node H)) : Except Unit (List (String × Node H)) :=
  match k ((lookupC s l).getD emptyNode) with
  | .error e => .error e
  | .ok c' => .ok (setC s c' l)

/-- Update a wildcard/catch-all slot carrying capture name `nm` by `k`:
create the child if the slot is free, descend when the names agree, reject
a name mismatch. -/
def slotUpd {H : Type} (nm : Option String) (k : Node H → Except Unit (Node H))
    (slot : Option (Option String × Node H)) :
    Except Unit (Option (Option String × Node H)) :=
  match slot with
  | none =>
    match k emptyNode with
    | .error e => .error e
    | .ok c' => .ok (some (nm, c'))
  | some (nm', c) =>
    if nm' = nm then
      match k c with
      | .error e => .error e
      | .ok c' => .ok (some (nm, c'))
    else .error ()

/-- One route registration: a path pattern, a method and a handler. -/
structure Reg (H : Type) where
  pats : List PatSeg
  method : Method
  handler : H
deriving DecidableEq

/-- Perform one registration on a router. -/
def regOne {H : Type} [DecidableEq H] (r : Reg H) (t : Node H) : Except Unit (Node H) :=
  registerAux r.pats r.method r.handler t

/-- Perform a list of registrations in order, stopping at the first
construction-time error. -/
def regList {H : Type} [DecidableEq H] : List (Reg H) → Node H → Except Unit (Node H)
  | [], t => .ok t
  | r :: rs, t =>
    match regOne r t with
    | .error e => .error e
    | .ok t' => regList rs t'

/-- Registration of `GET /x` with handler 1. -/
def regA : Reg Nat := ⟨[.concrete "x"], .GET, 1⟩

/-- Registration of `POST /x` with handler 2. -/
def regB : Reg Nat := ⟨[.concrete "x"], .POST, 2⟩

/-- The router holding `GET /x` and `POST /x`. -/
def treeAB : Node Nat :=
  .mk [("x", .mk [] none none { get := some 1, post := some 2 })] none none MethodMap.empty

@[simp] theorem Node.concrete_mk {H : Type} (c w ca hs) :
    (Node.mk (H := H) c w ca hs).concrete = c := rfl

@[simp] theorem Node.wildcard_mk {H : Type} (c w ca hs) :
    (Node.mk (H := H) c w ca hs).wildcard = w := rfl

@[simp] theorem Node.catchAll_mk {H : Type} (c w ca hs) :
    (Node.mk (H := H) c w ca hs).catchAll = ca := rfl

@[simp] theorem Node.handlers_mk {H : Type} (c w ca hs) :
    (Node.mk (H := H) c w ca hs).handlers = hs := rfl

/-- Driving the continuation over instrumented middleware `s, …, s+n-1`
yields the pre-steps in order, then the handler, then the post-steps in
reverse order. -/
theorem run_traceMw (n : Nat) : ∀ (s : Nat) (req : Request) (cx : Context Unit),
    Next.run ⟨traceHandler, (idxFrom s n).map traceMw⟩ req cx
      = ((idxFrom s n).map TEvent.pre) ++ [TEvent.handle]
          ++ ((idxFrom s n).reverse.map TEvent.post) := by
  induction n with
  | zero => intro s req cx; simp [idxFrom, Next.run, traceHandler]
  | succ n ih =>
    intro s req cx
    simp only [idxFrom, List.map_cons, Next.run, traceMw, ih, List.reverse_cons,
      List.map_append, List.map_cons, List.map_nil, List.cons_append, List.append_assoc,
      List.nil_append]

/-- If the middleware at position `s+k` short-circuits, driving the chain
records the first `k` pre-steps, then the short-circuit response, then the
first `k` post-steps in reverse — and no event of any later middleware and
no handler event, whatever follows the short-circuiting middleware. -/
theorem run_shortMw (k : Nat) :
    ∀ (s : Nat) (tail : List (Middleware Unit (List TEvent))) (req : Request)
      (cx : Context Unit),
    Next.run ⟨traceHandler, (idxFrom s k).map traceMw ++ shortMw :: tail⟩ req cx
      = ((idxFrom s k).map TEvent.pre) ++ [TEvent.short]
          ++ ((idxFrom s k).reverse.map TEvent.post) := by
  induction k with
  | zero => intro s tail req cx; simp [idxFrom, Next.run, shortMw]
  | succ k ih =>
    intro s tail req cx
    simp only [idxFrom, List.map_cons, List.cons_append, Next.run, traceMw, ih,
      List.reverse_cons, List.map_append, List.map_cons, List.map_nil,
      List.append_assoc, List.nil_append]

/-- C2: middleware pre-processing runs in registration order, the handler
runs last, post-processing runs in exactly reverse registration order (here
observed through instrumented middleware over any middleware count `n`);
each middleware wraps the chain over the remaining list; and a middleware
that never invokes its continuation prevents every later-registered
middleware and the handler from running, whatever the later middleware
are. -/
theorem claim_C2 :
    (∀ (n : Nat) (req : Request) (cx : Context Unit),
      Next.run ⟨traceHandler, (idxFrom 0 n).map traceMw⟩ req cx
        = ((idxFrom 0 n).map TEvent.pre) ++ [TEvent.handle]
            ++ ((idxFrom 0 n).reverse.map TEvent.post))
    ∧ (∀ (State R : Type) (ep : Endpoint State R) (mw : Middleware State R)
        (mws : List (Middleware State R)) (req : Request) (cx : Context State),
      Next.run ⟨ep, mw :: mws⟩ req cx = mw req cx (fun r c => Next.run ⟨ep, mws⟩ r c))
    ∧ (∀ (k : Nat) (tail : List (Middleware Unit (List TEvent))) (req : Request)
        (cx : Context Unit),
      Next.run ⟨traceHandler, (idxFrom 0 k).map traceMw ++ shortMw :: tail⟩ req cx
        = ((idxFrom 0 k).map TEvent.pre) ++ [TEvent.short]
            ++ ((idxFrom 0 k).reverse.map TEvent.post)) := by
  refine ⟨fun n req cx => run_traceMw n 0 req cx, fun _ _ _ _ _ _ _ => by
    simp [Next.run], fun k tail req cx => run_shortMw k 0 tail req cx⟩

/-- The empty method table has no handler for any method. -/
@[simp] theorem MethodMap.lookup_empty {H : Type} (m : Method) :
    MethodMap.lookup m (MethodMap.empty : MethodMap H) = none := by
  cases m <;> rfl

/-- Routing returns "no route" exactly when the path has no structural
match in the trie, independently of the accumulated params. -/
theorem routeAux_eq_noRoute_iff {H : Type} (m : Method) (segs : List String) :
    ∀ (t : Node H) (ps : List (String × String)),
      (routeAux m t segs ps = .noRoute) ↔ matchesPath t segs = false := by
  induction segs with
  | nil =>
    intro t ps
    simp only [routeAux, matchesPath]
    rcases h1 : MethodMap.lookup m t.handlers with _ | h
    · rcases h2 : t.catchAll with _ | ⟨nm, c⟩
      · simp
      · rcases h3 : MethodMap.lookup m c.handlers with _ | h <;> simp [h3]
    · simp
  | cons seg rest ih =>
    intro t ps
    simp only [routeAux, matchesPath]
    rcases h1 : lookupC seg t.concrete with _ | c
    · rcases h2 : t.wildcard with _ | ⟨nm, c⟩
      · rcases h3 : t.catchAll with _ | ⟨nm, c⟩
        · simp
        · rcases h4 : MethodMap.lookup m c.handlers with _ | h <;> simp [h4]
      · simpa using ih c (ps ++ capOf nm seg)
    · simpa using ih c ps

/-- C3: routing yields exactly one of three mutually exclusive outcomes —
success with a handler and params, "no route", or "method not allowed";
"no route" holds exactly when the path has no structural match, "method not
allowed" only when the path did match a node structurally, and the two
failure conditions are distinct values. -/
theorem claim_C3 {H : Type} (t : Node H) (segs : List String) (m : Method) :
    ((∃ h ps, route m t segs = .found h ps)
        ∨ route m t segs = .noRoute ∨ route m t segs = .methodNotAllowed)
    ∧ (route m t segs = .noRoute ↔ matchesPath t segs = false)
    ∧ (route m t segs = .methodNotAllowed → matchesPath t segs = true)
    ∧ (RouteResult.noRoute (H := H) ≠ RouteResult.methodNotAllowed) := by
  refine ⟨?_, routeAux_eq_noRoute_iff m segs t [], ?_, by intro h; cases h⟩
  · rcases hr : route m t segs with ⟨h, ps⟩ | _ | _
    · exact Or.inl ⟨h, ps, rfl⟩
    · exact Or.inr (Or.inl rfl)
    · exact Or.inr (Or.inr rfl)
  · intro hmna
    rcases hm : matchesPath t segs with _ | _
    · exact absurd ((routeAux_eq_noRoute_iff m segs t []).mpr hm) (by
        intro hc
        rw [route] at hmna
        rw [hmna] at hc
        cases hc)
    · rfl

/-- C3 witness at concrete inputs. -/
theorem claim_C3_witness :
    (route Method.GET (emptyNode (H := Nat)) ["x"] = .noRoute
        ↔ matchesPath (emptyNode (H := Nat)) ["x"] = false)
    ∧ (route Method.GET (emptyNode (H := Nat)) [] = .methodNotAllowed →
        matchesPath (emptyNode (H := Nat)) [] = true) :=
  ⟨(claim_C3 (emptyNode (H := Nat)) ["x"] Method.GET).2.1,
    (claim_C3 (emptyNode (H := Nat)) [] Method.GET).2.2.1⟩

/-- C4: strict precedence of the matching walk at each node. -/
theorem claim_C4 {H : Type} (m : Method) (t : Node H) (seg : String)
    (rest : List String) (ps : List (String × String)) :
    (∀ c, lookupC seg t.concrete = some c →
      routeAux m t (seg :: rest) ps = routeAux m c rest ps)
    ∧ (∀ nm c, lookupC seg t.concrete = none → t.wildcard = some (nm, c) →
      routeAux m t (seg :: rest) ps = routeAux m c rest (ps ++ capOf nm seg))
    ∧ (∀ nm c, lookupC seg t.concrete = none → t.wildcard = none →
        t.catchAll = some (nm, c) →
      routeAux m t (seg :: rest) ps =
        (match MethodMap.lookup m c.handlers with
          | some h => .found h (ps ++ capOf nm (String.intercalate "/" (seg :: rest)))
          | none => .methodNotAllowed))
    ∧ (lookupC seg t.concrete = none → t.wildcard = none → t.catchAll = none →
      routeAux m t (seg :: rest) ps = .noRoute) := by
  refine ⟨fun c h1 => ?_, fun nm c h1 h2 => ?_, fun nm c h1 h2 h3 => ?_,
    fun h1 h2 h3 => ?_⟩
  · simp [routeAux, h1]
  · simp [routeAux, h1, h2]
  · simp only [routeAux, h1, h2, h3]
  · simp [routeAux, h1, h2, h3]

/-- C4 witness: at concrete nodes, the concrete child wins over both
wildcard and catch-all; the wildcard consumes one segment and captures it;
the catch-all binds the joined remainder; no child at all means no route. -/
theorem claim_C4_witness :
    routeAux Method.GET nodeCWR ["a"] [] = routeAux Method.GET (leafGET 1) [] []
    ∧ routeAux Method.GET nodeWR ["x"] []
        = routeAux Method.GET (leafGET 2) [] ([] ++ capOf (some "w") "x")
    ∧ routeAux Method.GET nodeR ["x", "y"] [] = .found 3 [("r", "x/y")]
    ∧ routeAux Method.GET (emptyNode (H := Nat)) ["x"] [] = .noRoute :=
  ⟨(claim_C4 Method.GET nodeCWR "a" [] []).1 (leafGET 1) rfl,
    (claim_C4 Method.GET nodeWR "x" [] []).2.1 (some "w") (leafGET 2) rfl rfl,
    ((claim_C4 Method.GET nodeR "x" ["y"] []).2.2.1 (some "r") (leafGET 3)
        rfl rfl rfl).trans (by rfl),
    (claim_C4 Method.GET (emptyNode (H := Nat)) "x" [] []).2.2.2 rfl rfl rfl⟩

/-- C1 (amended): dispatch equals the specified pipeline — route once on
the request's path and method, build a fresh context from the shared state
and the extracted params, build the initial continuation over the full
middleware list with the matched (or synthetic) endpoint as terminal, and
drive it to completion on the request and the context. -/
theorem claim_C1 {State : Type} (svc : Service State) (req : Request) :
    svc.respond req = dispatchSpec svc req := rfl

/-- C1 counterexample to the claim as stated: the context `respond`
constructs is not built from the request — two distinct requests (differing
in their bodies) yield the very same context, because `respond` builds the
context from the shared state and the extracted params only and hands the
request to `Next::run` separately (`src/server.rs:285-287`). -/
theorem claim_C1_counterexample :
    respondContext svcUnit { method := .GET, path := "/", body := "a" }
      = respondContext svcUnit { method := .GET, path := "/", body := "b" }
    ∧ ({ method := .GET, path := "/", body := "a" } : Request)
        ≠ { method := .GET, path := "/", body := "b" } := by
  exact ⟨rfl, by decide⟩

/-- C9: serving requests never mutates the service — threading the service
value through any sequence of `respond` calls returns it unchanged, every
call observes the router, state and middleware list fixed at construction
(each response equals `respond` on the original service), and a clone is
the identical handle over the same shared data. -/
theorem claim_C9 {State : Type} (svc : Service State) (reqs : List Request) :
    serveThread svc reqs = (reqs.map svc.respond, svc)
    ∧ Service.clone svc = svc := by
  constructor
  · induction reqs with
    | nil => rfl
    | cons req reqs ih => simp [serveThread, ih]
  · cases svc; rfl

/-- C10: `Server::new`, `Server::default` and `Server::with_state(())`
produce the same initial server — empty router, empty middleware list,
unit state — and before any registration every route lookup through such a
server fails (is never a success). -/
theorem claim_C10 :
    Server.new = Server.defaultServer
    ∧ Server.new = Server.withState ()
    ∧ Server.new.router = emptyNode
    ∧ Server.new.middleware = []
    ∧ Server.new.state = ()
    ∧ ∀ (path : String) (m : Method),
        (routePath Server.new.router path m).isFound = false := by
  refine ⟨rfl, rfl, rfl, rfl, rfl, fun path m => ?_⟩
  show (route m emptyNode (segsOf path)).isFound = false
  cases h : segsOf path with
  | nil => simp [route, routeAux, emptyNode, RouteResult.isFound]
  | cons seg rest => simp [route, routeAux, emptyNode, lookupC, RouteResult.isFound]

/-- Setting a method slot makes that slot's lookup return the handler. -/
@[simp] theorem MethodMap.lookup_set_self {H : Type} (m : Method) (h : H) (t : MethodMap H) :
    MethodMap.lookup m (t.set m h) = some h := by
  cases m <;> rfl

/-- A successful `setHandler` leaves the registered handler in the slot. -/
theorem setHandler_ok_lookup {H : Type} [DecidableEq H] {m : Method} {h : H}
    {t hs : MethodMap H} (hok : setHandler m h t = .ok hs) :
    MethodMap.lookup m hs = some h := by
  unfold setHandler at hok
  rcases h1 : MethodMap.lookup m t with _ | h'
  · rw [h1] at hok
    cases hok
    simp
  · rw [h1] at hok
    by_cases h2 : h' = h
    · subst h2
      simp at hok
      subst hok
      exact h1
    · simp [h2] at hok

/-- Looking up the key just set finds the new child. -/
theorem lookupC_setC_self {H : Type} (s : String) (c : Node H) (l : List (String × Node H)) :
    lookupC s (setC s c l) = some c := by
  induction l with
  | nil => simp [setC, lookupC]
  | cons p rest ih =>
    obtain ⟨s', c'⟩ := p
    by_cases h : s = s'
    · subst h; simp [setC, lookupC]
    · by_cases h2 : s < s'
      · simp [setC, h, h2, lookupC]
      · simp [setC, h, h2, lookupC, ih]

/-- Setting one key leaves lookups of any other key unchanged. -/
theorem lookupC_setC_ne {H : Type} {a s : String} (h : a ≠ s) (c : Node H)
    (l : List (String × Node H)) : lookupC a (setC s c l) = lookupC a l := by
  induction l with
  | nil => simp [setC, lookupC, h]
  | cons p rest ih =>
    obtain ⟨s', c'⟩ := p
    by_cases h1 : s = s'
    · subst h1; simp [setC, lookupC, h]
    · by_cases h2 : s < s'
      · simp [setC, h1, h2, lookupC, h]
      · simp [setC, h1, h2, lookupC, ih]

/-- Registering along a concatenated pattern is nesting at the first part
and registering the second part inside. -/
theorem registerAux_append {H : Type} [DecidableEq H] (q : List PatSeg) (m : Method) (h : H) :
    ∀ (p : List PatSeg) (t : Node H),
      registerAux (p ++ q) m h t = nestAt (registerAux q m h) p t := by
  intro p
  induction p with
  | nil => intro t; rfl
  | cons pseg rest ih =>
    intro t
    cases pseg with
    | concrete s =>
      simp only [List.cons_append, registerAux, nestAt, List.append_eq, ih]
    | wildcard nm =>
      simp only [List.cons_append, registerAux, nestAt, List.append_eq]
      rcases t.wildcard with _ | ⟨nm', c⟩
      · simp only [ih]
      · by_cases hn : nm' = nm <;> simp [hn, ih]
    | catchAll nm =>
      simp only [List.cons_append, registerAux, nestAt, List.append_eq]
      rcases t.catchAll with _ | ⟨nm', c⟩
      · simp only [ih]
      · by_cases hn : nm' = nm <;> simp [hn, ih]

/-- C6: nesting is associative — registering at `/b/c/a` directly produces
the same router as nesting at `/b`, nesting at `/c` inside it, and
registering at `/a` there; hence the same routing result for every request
path and method. -/
theorem claim_C6 {H : Type} [DecidableEq H] (h : H) (m : Method) (t : Node H) :
    registerAux [.concrete "b", .concrete "c", .concrete "a"] m h t
      = nestAt (nestAt (registerAux [.concrete "a"] m h) [.concrete "c"]) [.concrete "b"] t
    ∧ ∀ (path : String) (m' : Method),
      (registerAux [.concrete "b", .concrete "c", .concrete "a"] m h t).map
          (fun u => routePath u path m')
        = (nestAt (nestAt (registerAux [.concrete "a"] m h) [.concrete "c"])
            [.concrete "b"] t).map (fun u => routePath u path m') := by
  have hmain : registerAux [.concrete "b", .concrete "c", .concrete "a"] m h t
      = nestAt (nestAt (registerAux [.concrete "a"] m h) [.concrete "c"])
          [.concrete "b"] t := by
    have h1 : registerAux [PatSeg.concrete "c", PatSeg.concrete "a"] m h
        = nestAt (registerAux [PatSeg.concrete "a"] m h) [PatSeg.concrete "c"] :=
      funext fun u =>
        registerAux_append [PatSeg.concrete "a"] m h [PatSeg.concrete "c"] u
    have h2 := registerAux_append [PatSeg.concrete "c", PatSeg.concrete "a"] m h
      [PatSeg.concrete "b"] t
    rw [show ([PatSeg.concrete "b", PatSeg.concrete "c", PatSeg.concrete "a"])
        = [PatSeg.concrete "b"] ++ [PatSeg.concrete "c", PatSeg.concrete "a"] from rfl,
      h2, h1]
  exact ⟨hmain, fun path m' => by rw [hmain]⟩

/-- C7: registering a different handler at a (pattern, method) pair that a
successful registration already filled is a construction-time error — the
second registration is rejected, never silently overwritten. -/
theorem claim_C7 {H : Type} [DecidableEq H] (pats : List PatSeg) (m : Method)
    (h1 h2 : H) (hne : h1 ≠ h2) :
    ∀ (t t' : Node H), registerAux pats m h1 t = .ok t' →
      registerAux pats m h2 t' = .error () := by
  induction pats with
  | nil =>
    intro t t' hok
    simp only [registerAux] at hok
    split at hok
    · exact Except.noConfusion hok
    · next hs' hsOk =>
      cases hok
      have hl : MethodMap.lookup m hs' = some h1 := setHandler_ok_lookup hsOk
      simp [registerAux, setHandler, hl, hne]
  | cons pseg rest ih =>
    intro t t' hok
    cases pseg with
    | concrete s =>
      simp only [registerAux] at hok
      split at hok
      · exact Except.noConfusion hok
      · next c' hr =>
        cases hok
        simp [registerAux, lookupC_setC_self, ih _ _ hr]
    | wildcard nm =>
      simp only [registerAux] at hok
      split at hok
      · split at hok
        · exact Except.noConfusion hok
        · next c' hr =>
          cases hok
          simp [registerAux, ih _ _ hr]
      · split at hok
        · split at hok
          · exact Except.noConfusion hok
          · next c' hr =>
            cases hok
            simp [registerAux, ih _ _ hr]
        · exact Except.noConfusion hok
    | catchAll nm =>
      simp only [registerAux] at hok
      split at hok
      · split at hok
        · exact Except.noConfusion hok
        · next c' hr =>
          cases hok
          simp [registerAux, ih _ _ hr]
      · split at hok
        · split at hok
          · exact Except.noConfusion hok
          · next c' hr =>
            cases hok
            simp [registerAux, ih _ _ hr]
        · exact Except.noConfusion hok

/-- C7 witness: registering handler 2 at `GET /x` after handler 1 was
registered there is rejected. -/
theorem claim_C7_witness :
    registerAux [PatSeg.concrete "x"] Method.GET (2 : Nat)
      (.mk [("x", .mk [] none none { get := some 1 })] none none MethodMap.empty)
      = .error () :=
  claim_C7 [PatSeg.concrete "x"] Method.GET 1 2 (by decide) emptyNode
    (.mk [("x", .mk [] none none { get := some 1 })] none none MethodMap.empty) rfl

@[simp] theorem emptyNode_concrete {H : Type} : (emptyNode (H := H)).concrete = [] := rfl

@[simp] theorem emptyNode_wildcard {H : Type} : (emptyNode (H := H)).wildcard = none := rfl

@[simp] theorem emptyNode_catchAll {H : Type} : (emptyNode (H := H)).catchAll = none := rfl

@[simp] theorem emptyNode_handlers {H : Type} :
    (emptyNode (H := H)).handlers = MethodMap.empty := rfl

@[simp] theorem lookupC_nil {H : Type} (s : String) :
    lookupC (H := H) s [] = none := rfl

/-- Registering any single pattern into the empty router always succeeds
and produces the linear trie. -/
theorem registerAux_emptyNode {H : Type} [DecidableEq H] (m : Method) (h : H) :
    ∀ (pats : List PatSeg), registerAux pats m h emptyNode = .ok (mkLinear m h pats) := by
  intro pats
  induction pats with
  | nil => simp [registerAux, setHandler, mkLinear]
  | cons pseg rest ih =>
    cases pseg with
    | concrete s => simp [registerAux, ih, mkLinear, setC]
    | wildcard nm => simp [registerAux, ih, mkLinear]
    | catchAll nm => simp [registerAux, ih, mkLinear]

/-- Routing a path that matches the prefix of a catch-all pattern through
the pattern's linear trie succeeds for every tail (zero or more segments),
with the tail joined by `/` captured under the catch-all name when one is
present. -/
theorem routeAux_mkLinear_catchAll {H : Type} (m : Method) (h : H) (nmo : Option String) :
    ∀ {pre : List PatSeg} {reqPre : List String} {caps : List (String × String)},
      PrefixMatch pre reqPre caps →
      ∀ (tail : List String) (ps : List (String × String)),
        routeAux m (mkLinear m h (pre ++ [.catchAll nmo])) (reqPre ++ tail) ps
          = .found h (ps ++ caps ++ capOf nmo (String.intercalate "/" tail)) := by
  intro pre reqPre caps hpm
  induction hpm with
  | nil =>
    intro tail ps
    cases tail with
    | nil =>
      simp [mkLinear, routeAux, String.intercalate]
    | cons seg rest =>
      simp [mkLinear, routeAux, lookupC]
  | concrete s hpm ih =>
    intro tail ps
    simp [mkLinear, routeAux, lookupC, ih]
  | wildNamed n seg hpm ih =>
    intro tail ps
    simp [mkLinear, routeAux, lookupC, ih, capOf]
  | wildAnon seg hpm ih =>
    intro tail ps
    simp [mkLinear, routeAux, lookupC, ih, capOf]

/-- C8: for a pattern ending in a catch-all (`*name` or `*`), routing any
path that matches the pattern's prefix up to the catch-all position through
the resulting router succeeds for every remaining tail — zero or more
segments — and, when the catch-all is named, captures exactly the joined
remaining tail under that name. -/
theorem claim_C8 {H : Type} [DecidableEq H] (pre : List PatSeg) (nmo : Option String)
    (m : Method) (h : H) (reqPre tail : List String) (caps : List (String × String))
    (t' : Node H) (hpm : PrefixMatch pre reqPre caps)
    (hreg : registerAux (pre ++ [.catchAll nmo]) m h emptyNode = .ok t') :
    route m t' (reqPre ++ tail)
      = .found h (caps ++ capOf nmo (String.intercalate "/" tail)) := by
  rw [registerAux_emptyNode] at hreg
  cases hreg
  simpa using routeAux_mkLinear_catchAll m h nmo hpm tail []

/-- C8 witness: register `static/:dir/*path` and route `/static/img`, with
zero trailing segments after the prefix, and `/static/img/a/b`, with two;
both succeed and `path` captures exactly the joined tail. -/
theorem claim_C8_witness :
    route Method.GET
        (mkLinear Method.GET (7 : Nat)
          [PatSeg.concrete "static", PatSeg.wildcard (some "dir"), PatSeg.catchAll (some "path")])
        ["static", "img"]
      = .found 7 [("dir", "img"), ("path", "")]
    ∧ route Method.GET
        (mkLinear Method.GET (7 : Nat)
          [PatSeg.concrete "static", PatSeg.wildcard (some "dir"), PatSeg.catchAll (some "path")])
        ["static", "img", "a", "b"]
      = .found 7 [("dir", "img"), ("path", "a/b")] :=
  ⟨claim_C8 [PatSeg.concrete "static", PatSeg.wildcard (some "dir")] (some "path")
      Method.GET 7 ["static", "img"] [] [("dir", "img")] _
      (PrefixMatch.concrete "static" (PrefixMatch.wildNamed "dir" "img" PrefixMatch.nil))
      (registerAux_emptyNode Method.GET 7 _),
    claim_C8 [PatSeg.concrete "static", PatSeg.wildcard (some "dir")] (some "path")
      Method.GET 7 ["static", "img"] ["a", "b"] [("dir", "img")] _
      (PrefixMatch.concrete "static" (PrefixMatch.wildNamed "dir" "img" PrefixMatch.nil))
      (registerAux_emptyNode Method.GET 7 _)⟩

/-- Setting one method slot leaves every other slot's lookup unchanged. -/
theorem MethodMap.lookup_set_ne {H : Type} {m m' : Method} (hne : m ≠ m') (h : H)
    (t : MethodMap H) : MethodMap.lookup m' (t.set m h) = MethodMap.lookup m' t := by
  cases m <;> cases m' <;> first | exact absurd rfl hne | rfl

/-- Setting two different method slots commutes. -/
theorem MethodMap.set_set_comm {H : Type} {m m' : Method} (hne : m ≠ m') (h h' : H)
    (t : MethodMap H) : (t.set m' h').set m h = (t.set m h).set m' h' := by
  cases m <;> cases m' <;> first | exact absurd rfl hne | rfl

/-- Two handler-table registrations commute, conflicts included: in either
order the sequence succeeds with the same table or fails. -/
theorem setHandler_comm {H : Type} [DecidableEq H] (m1 m2 : Method) (h1 h2 : H)
    (mm : MethodMap H) :
    andThen (setHandler m1 h1 mm) (setHandler m2 h2)
      = andThen (setHandler m2 h2 mm) (setHandler m1 h1) := by
  by_cases hm : m1 = m2
  · subst hm
    rcases l : MethodMap.lookup m1 mm with _ | a
    · simp only [andThen, setHandler, l, MethodMap.lookup_set_self]
      by_cases h12 : h1 = h2
      · subst h12; simp
      · simp [h12, Ne.symm h12]
    · simp only [andThen, setHandler, l]
      by_cases e1 : a = h1
      · by_cases e2 : a = h2
        · subst e1; subst e2; simp [l]
        · have hne12 : h1 ≠ h2 := fun hh => e2 (e1.trans hh)
          simp [e1, e2, l, hne12]
      · by_cases e2 : a = h2
        · have hne21 : h2 ≠ h1 := fun hh => e1 (e2.trans hh)
          simp [e1, e2, l, hne21]
        · simp [e1, e2, l]
  · have hm' : m2 ≠ m1 := Ne.symm hm
    rcases l1 : MethodMap.lookup m1 mm with _ | a <;>
      rcases l2 : MethodMap.lookup m2 mm with _ | b
    · simp only [andThen, setHandler, l1, l2, MethodMap.lookup_set_ne hm,
        MethodMap.lookup_set_ne hm']
      rw [MethodMap.set_set_comm hm]
    · simp only [andThen, setHandler, l1, l2, MethodMap.lookup_set_ne hm,
        MethodMap.lookup_set_ne hm']
      by_cases e2 : b = h2 <;> simp [e2, setHandler, l1]
    · simp only [andThen, setHandler, l1, l2, MethodMap.lookup_set_ne hm,
        MethodMap.lookup_set_ne hm']
      by_cases e1 : a = h1 <;> simp [e1, setHandler, l2]
    · simp only [andThen, setHandler, l1, l2]
      by_cases e1 : a = h1 <;> by_cases e2 : b = h2 <;>
        simp [e1, e2, setHandler, l1, l2]

/-- Setting the same concrete key twice keeps only the second child. -/
theorem setC_setC_self {H : Type} (s : String) (a b : Node H)
    (l : List (String × Node H)) : setC s a (setC s b l) = setC s a l := by
  induction l with
  | nil => simp [setC]
  | cons p rest ih =>
    obtain ⟨w, cw⟩ := p
    by_cases h1 : s = w
    · subst h1; simp [setC]
    · by_cases h2 : s < w
      · simp [setC, h1, h2]
      · simp [setC, h1, h2, ih]

/-- Setting two different concrete keys commutes (the sorted insertion is
canonical). -/
theorem setC_setC_comm {H : Type} {s u : String} (hne : s ≠ u) (a b : Node H)
    (l : List (String × Node H)) : setC s a (setC u b l) = setC u b (setC s a l) := by
  induction l with
  | nil =>
    rcases lt_trichotomy s u with hlt | heq | hgt
    · simp [setC, hne, Ne.symm hne, hlt, lt_asymm hlt]
    · exact absurd heq hne
    · simp [setC, hne, Ne.symm hne, hgt, lt_asymm hgt]
  | cons p rest ih =>
    obtain ⟨w, cw⟩ := p
    by_cases hsw : s = w
    · subst hsw
      by_cases hus : u < s
      · simp [setC, hne, Ne.symm hne, hus, lt_asymm hus]
      · simp [setC, hne, Ne.symm hne, hus]
    · by_cases huw : u = w
      · subst huw
        by_cases hsu : s < u
        · simp [setC, hne, Ne.symm hne, hsu, lt_asymm hsu]
        · simp [setC, hne, Ne.symm hne, hsu]
      · by_cases hs : s < w <;> by_cases hu : u < w
        · rcases lt_trichotomy s u with hlt | heq | hgt
          · simp [setC, hne, Ne.symm hne, hs, hu, hsw, huw, hlt, lt_asymm hlt]
          · exact absurd heq hne
          · simp [setC, hne, Ne.symm hne, hs, hu, hsw, huw, hgt, lt_asymm hgt]
        · have hsu : s < u := by
            rcases lt_trichotomy u w with h' | h' | h'
            · exact absurd h' hu
            · exact absurd h' huw
            · exact lt_trans hs h'
          simp [setC, hne, Ne.symm hne, hs, hu, hsw, huw, hsu, lt_asymm hsu]
        · have hus : u < s := by
            rcases lt_trichotomy s w with h' | h' | h'
            · exact absurd h' hs
            · exact absurd h' hsw
            · exact lt_trans hu h'
          simp [setC, hne, Ne.symm hne, hs, hu, hsw, huw, hus, lt_asymm hus]
        · simp [setC, hne, Ne.symm hne, hs, hu, hsw, huw, ih]

/-- Fallible updates to two independent fields of a node commute. -/
theorem updField_comm_cross {H A B : Type} (setA : Node H → A → Node H)
    (getA : Node H → A) (setB : Node H → B → Node H) (getB : Node H → B)
    (hAB : ∀ t b, getA (setB t b) = getA t) (hBA : ∀ t a, getB (setA t a) = getB t)
    (hsets : ∀ t a b, setB (setA t a) b = setA (setB t b) a)
    (g1 : A → Except Unit A) (g2 : B → Except Unit B) (t : Node H) :
    andThen (updField setA getA g1 t) (updField setB getB g2)
      = andThen (updField setB getB g2 t) (updField setA getA g1) := by
  rcases r1 : g1 (getA t) with e1 | a <;> rcases r2 : g2 (getB t) with e2 | b <;>
    simp [andThen, updField, r1, r2, hAB, hBA, hsets]

/-- Two fallible updates to the same field of a node commute as soon as the
underlying field updates commute. -/
theorem updField_comm_diag {H A : Type} (set : Node H → A → Node H) (get : Node H → A)
    (hgs : ∀ t a, get (set t a) = a) (hss : ∀ t a b, set (set t a) b = set t b)
    (g1 g2 : A → Except Unit A)
    (hg : ∀ a, andThen (g1 a) g2 = andThen (g2 a) g1) (t : Node H) :
    andThen (updField set get g1 t) (updField set get g2)
      = andThen (updField set get g2 t) (updField set get g1) := by
  have hmm := hg (get t)
  rcases r1 : g1 (get t) with e1 | a
  · rcases r2 : g2 (get t) with e2 | b
    · simp [andThen, updField, r1, r2]
    · simp only [andThen, r1, r2] at hmm
      simp [andThen, updField, r1, r2, hgs, ← hmm]
  · rcases r2 : g2 (get t) with e2 | b
    · simp only [andThen, r1, r2] at hmm
      simp [andThen, updField, r1, r2, hgs, hmm]
    · simp only [andThen, r1, r2] at hmm
      simp only [andThen, updField, r1, r2, hgs]
      rw [hmm]
      rcases r3 : g1 b with e3 | c
      · simp
      · simp [hss]

/-- `registerAux` on the empty pattern is the handlers-field update. -/
theorem registerAux_nil_eq {H : Type} [DecidableEq H] (m : Method) (h : H) (t : Node H) :
    registerAux [] m h t = updField putHandlers Node.handlers (setHandler m h) t := by
  simp only [registerAux, updField, putHandlers]
  rcases hs : setHandler m h t.handlers with e | hs' <;> simp [hs]

/-- `registerAux` on a concrete head segment is the concrete-children
update at that key. -/
theorem registerAux_concrete_eq {H : Type} [DecidableEq H] (s : String)
    (rest : List PatSeg) (m : Method) (h : H) (t : Node H) :
    registerAux (.concrete s :: rest) m h t
      = updField putConcrete Node.concrete (concUpd s (registerAux rest m h)) t := by
  simp only [registerAux, updField, concUpd, putConcrete]
  rcases hr : registerAux rest m h ((lookupC s t.concrete).getD emptyNode) with _ | c' <;>
    simp [hr]

/-- `registerAux` on a wildcard head segment is the wildcard-slot update. -/
theorem registerAux_wildcard_eq {H : Type} [DecidableEq H] (nm : Option String)
    (rest : List PatSeg) (m : Method) (h : H) (t : Node H) :
    registerAux (.wildcard nm :: rest) m h t
      = updField putWildcard Node.wildcard (slotUpd nm (registerAux rest m h)) t := by
  simp only [registerAux, updField, slotUpd, putWildcard]
  rcases hw : t.wildcard with _ | ⟨nm', c⟩
  · rcases hr : registerAux rest m h emptyNode with _ | c' <;> simp [hr]
  · by_cases hn : nm' = nm
    · rcases hr : registerAux rest m h c with _ | c' <;> simp [hn, hr]
    · simp [hn]

/-- `registerAux` on a catch-all head segment is the catch-all-slot
update. -/
theorem registerAux_catchAll_eq {H : Type} [DecidableEq H] (nm : Option String)
    (rest : List PatSeg) (m : Method) (h : H) (t : Node H) :
    registerAux (.catchAll nm :: rest) m h t
      = updField putCatchAll Node.catchAll (slotUpd nm (registerAux rest m h)) t := by
  simp only [registerAux, updField, slotUpd, putCatchAll]
  rcases hw : t.catchAll with _ | ⟨nm', c⟩
  · rcases hr : registerAux rest m h emptyNode with _ | c' <;> simp [hr]
  · by_cases hn : nm' = nm
    · rcases hr : registerAux rest m h c with _ | c' <;> simp [hn, hr]
    · simp [hn]

/-- Two concrete-children updates commute when the child registrations
commute pointwise. -/
theorem concUpd_comm {H : Type} (s1 s2 : String)
    (k1 k2 : Node H → Except Unit (Node H))
    (hk : ∀ c, andThen (k1 c) k2 = andThen (k2 c) k1) (l : List (String × Node H)) :
    andThen (concUpd s1 k1 l) (concUpd s2 k2) = andThen (concUpd s2 k2 l) (concUpd s1 k1) := by
  by_cases hs : s1 = s2
  · subst hs
    have hc := hk ((lookupC s1 l).getD emptyNode)
    rcases r1 : k1 ((lookupC s1 l).getD emptyNode) with e1 | c1
    · rcases r2 : k2 ((lookupC s1 l).getD emptyNode) with e2 | c2
      · simp [andThen, concUpd, r1, r2]
      · simp only [andThen, r1, r2] at hc
        simp [andThen, concUpd, r1, r2, lookupC_setC_self, ← hc]
    · rcases r2 : k2 ((lookupC s1 l).getD emptyNode) with e2 | c2
      · simp only [andThen, r1, r2] at hc
        simp [andThen, concUpd, r1, r2, lookupC_setC_self, hc]
      · simp only [andThen, r1, r2] at hc
        simp only [andThen, concUpd, r1, r2, lookupC_setC_self, Option.getD_some]
        rw [hc]
        rcases r3 : k1 c2 with e3 | c3
        · simp
        · simp [setC_setC_self]
  · have hs' : s2 ≠ s1 := Ne.symm hs
    rcases r1 : k1 ((lookupC s1 l).getD emptyNode) with e1 | c1 <;>
      rcases r2 : k2 ((lookupC s2 l).getD emptyNode) with e2 | c2 <;>
      simp [andThen, concUpd, r1, r2, lookupC_setC_ne hs, lookupC_setC_ne hs',
        setC_setC_comm hs]

/-- Two wildcard/catch-all slot updates commute when the child
registrations commute pointwise (name conflicts fail in either order). -/
theorem slotUpd_comm {H : Type} (nm1 nm2 : Option String)
    (k1 k2 : Node H → Except Unit (Node H))
    (hk : ∀ c, andThen (k1 c) k2 = andThen (k2 c) k1)
    (slot : Option (Option String × Node H)) :
    andThen (slotUpd nm1 k1 slot) (slotUpd nm2 k2)
      = andThen (slotUpd nm2 k2 slot) (slotUpd nm1 k1) := by
  by_cases hn : nm1 = nm2
  · subst hn
    rcases slot with _ | ⟨nm', c⟩
    · have hc := hk emptyNode
      rcases r1 : k1 (emptyNode (H := H)) with e1 | c1
      · rcases r2 : k2 (emptyNode (H := H)) with e2 | c2
        · simp [andThen, slotUpd, r1, r2]
        · simp only [andThen, r1, r2] at hc
          simp [andThen, slotUpd, r1, r2, ← hc]
      · rcases r2 : k2 (emptyNode (H := H)) with e2 | c2
        · simp only [andThen, r1, r2] at hc
          simp [andThen, slotUpd, r1, r2, hc]
        · simp only [andThen, r1, r2] at hc
          simp [andThen, slotUpd, r1, r2]
          rw [hc]
    · by_cases he : nm' = nm1
      · subst he
        have hc := hk c
        rcases r1 : k1 c with e1 | c1
        · rcases r2 : k2 c with e2 | c2
          · simp [andThen, slotUpd, r1, r2]
          · simp only [andThen, r1, r2] at hc
            simp [andThen, slotUpd, r1, r2, ← hc]
        · rcases r2 : k2 c with e2 | c2
          · simp only [andThen, r1, r2] at hc
            simp [andThen, slotUpd, r1, r2, hc]
          · simp only [andThen, r1, r2] at hc
            simp [andThen, slotUpd, r1, r2]
            rw [hc]
      · simp [andThen, slotUpd, he]
  · have hn' : nm2 ≠ nm1 := Ne.symm hn
    rcases slot with _ | ⟨nm', c⟩
    · rcases r1 : k1 (emptyNode (H := H)) with e1 | c1 <;>
        rcases r2 : k2 (emptyNode (H := H)) with e2 | c2 <;>
        simp [andThen, slotUpd, r1, r2, hn, hn']
    · by_cases he1 : nm' = nm1 <;> by_cases he2 : nm' = nm2
      · exact absurd (he1.symm.trans he2) hn
      · rcases r1 : k1 c with e1 | c1 <;>
          simp [andThen, slotUpd, he1, he2, r1, hn, hn']
      · rcases r2 : k2 c with e2 | c2 <;>
          simp [andThen, slotUpd, he1, he2, r2, hn, hn']
      · simp [andThen, slotUpd, he1, he2]

/-- Function-level form of `registerAux_nil_eq`. -/
theorem registerAux_nil_fun {H : Type} [DecidableEq H] (m : Method) (h : H) :
    registerAux ([] : List PatSeg) m h = updField putHandlers Node.handlers (setHandler m h) :=
  funext fun t => registerAux_nil_eq m h t

/-- Function-level form of `registerAux_concrete_eq`. -/
theorem registerAux_concrete_fun {H : Type} [DecidableEq H] (s : String)
    (rest : List PatSeg) (m : Method) (h : H) :
    registerAux (.concrete s :: rest) m h
      = updField putConcrete Node.concrete (concUpd s (registerAux rest m h)) :=
  funext fun t => registerAux_concrete_eq s rest m h t

/-- Function-level form of `registerAux_wildcard_eq`. -/
theorem registerAux_wildcard_fun {H : Type} [DecidableEq H] (nm : Option String)
    (rest : List PatSeg) (m : Method) (h : H) :
    registerAux (.wildcard nm :: rest) m h
      = updField putWildcard Node.wildcard (slotUpd nm (registerAux rest m h)) :=
  funext fun t => registerAux_wildcard_eq nm rest m h t

/-- Function-level form of `registerAux_catchAll_eq`. -/
theorem registerAux_catchAll_fun {H : Type} [DecidableEq H] (nm : Option String)
    (rest : List PatSeg) (m : Method) (h : H) :
    registerAux (.catchAll nm :: rest) m h
      = updField putCatchAll Node.catchAll (slotUpd nm (registerAux rest m h)) :=
  funext fun t => registerAux_catchAll_eq nm rest m h t

/-- Any two registrations commute: performing them in either order yields
the same router, or fails in both orders. -/
theorem registerAux_comm {H : Type} [DecidableEq H] (p1 : List PatSeg) :
    ∀ (p2 : List PatSeg) (m1 m2 : Method) (h1 h2 : H) (t : Node H),
      andThen (registerAux p1 m1 h1 t) (registerAux p2 m2 h2)
        = andThen (registerAux p2 m2 h2 t) (registerAux p1 m1 h1) := by
  induction p1 with
  | nil =>
    intro p2 m1 m2 h1 h2 t
    cases p2 with
    | nil =>
      rw [registerAux_nil_fun m1 h1, registerAux_nil_fun m2 h2]
      exact updField_comm_diag putHandlers Node.handlers (fun _ _ => rfl) (fun _ _ _ => rfl) _ _
        (fun mm => setHandler_comm m1 m2 h1 h2 mm) t
    | cons q qs =>
      cases q with
      | concrete s2 =>
        rw [registerAux_nil_fun m1 h1, registerAux_concrete_fun s2 qs m2 h2]
        exact updField_comm_cross putHandlers Node.handlers putConcrete Node.concrete (fun _ _ => rfl) (fun _ _ => rfl)
          (fun _ _ _ => rfl) _ _ t
      | wildcard nm2 =>
        rw [registerAux_nil_fun m1 h1, registerAux_wildcard_fun nm2 qs m2 h2]
        exact updField_comm_cross putHandlers Node.handlers putWildcard Node.wildcard (fun _ _ => rfl) (fun _ _ => rfl)
          (fun _ _ _ => rfl) _ _ t
      | catchAll nm2 =>
        rw [registerAux_nil_fun m1 h1, registerAux_catchAll_fun nm2 qs m2 h2]
        exact updField_comm_cross putHandlers Node.handlers putCatchAll Node.catchAll (fun _ _ => rfl) (fun _ _ => rfl)
          (fun _ _ _ => rfl) _ _ t
  | cons p ps ih =>
    intro p2 m1 m2 h1 h2 t
    cases p with
    | concrete s1 =>
      cases p2 with
      | nil =>
        rw [registerAux_concrete_fun s1 ps m1 h1, registerAux_nil_fun m2 h2]
        exact updField_comm_cross putConcrete Node.concrete putHandlers Node.handlers (fun _ _ => rfl) (fun _ _ => rfl)
          (fun _ _ _ => rfl) _ _ t
      | cons q qs =>
        cases q with
        | concrete s2 =>
          rw [registerAux_concrete_fun s1 ps m1 h1, registerAux_concrete_fun s2 qs m2 h2]
          exact updField_comm_diag putConcrete Node.concrete (fun _ _ => rfl) (fun _ _ _ => rfl) _ _
            (fun l => concUpd_comm s1 s2 _ _ (fun c => ih qs m1 m2 h1 h2 c) l) t
        | wildcard nm2 =>
          rw [registerAux_concrete_fun s1 ps m1 h1, registerAux_wildcard_fun nm2 qs m2 h2]
          exact updField_comm_cross putConcrete Node.concrete putWildcard Node.wildcard (fun _ _ => rfl) (fun _ _ => rfl)
            (fun _ _ _ => rfl) _ _ t
        | catchAll nm2 =>
          rw [registerAux_concrete_fun s1 ps m1 h1, registerAux_catchAll_fun nm2 qs m2 h2]
          exact updField_comm_cross putConcrete Node.concrete putCatchAll Node.catchAll (fun _ _ => rfl) (fun _ _ => rfl)
            (fun _ _ _ => rfl) _ _ t
    | wildcard nm1 =>
      cases p2 with
      | nil =>
        rw [registerAux_wildcard_fun nm1 ps m1 h1, registerAux_nil_fun m2 h2]
        exact updField_comm_cross putWildcard Node.wildcard putHandlers Node.handlers (fun _ _ => rfl) (fun _ _ => rfl)
          (fun _ _ _ => rfl) _ _ t
      | cons q qs =>
        cases q with
        | concrete s2 =>
          rw [registerAux_wildcard_fun nm1 ps m1 h1, registerAux_concrete_fun s2 qs m2 h2]
          exact updField_comm_cross putWildcard Node.wildcard putConcrete Node.concrete (fun _ _ => rfl) (fun _ _ => rfl)
            (fun _ _ _ => rfl) _ _ t
        | wildcard nm2 =>
          rw [registerAux_wildcard_fun nm1 ps m1 h1, registerAux_wildcard_fun nm2 qs m2 h2]
          exact updField_comm_diag putWildcard Node.wildcard (fun _ _ => rfl) (fun _ _ _ => rfl) _ _
            (fun slot => slotUpd_comm nm1 nm2 _ _ (fun c => ih qs m1 m2 h1 h2 c) slot) t
        | catchAll nm2 =>
          rw [registerAux_wildcard_fun nm1 ps m1 h1, registerAux_catchAll_fun nm2 qs m2 h2]
          exact updField_comm_cross putWildcard Node.wildcard putCatchAll Node.catchAll (fun _ _ => rfl) (fun _ _ => rfl)
            (fun _ _ _ => rfl) _ _ t
    | catchAll nm1 =>
      cases p2 with
      | nil =>
        rw [registerAux_catchAll_fun nm1 ps m1 h1, registerAux_nil_fun m2 h2]
        exact updField_comm_cross putCatchAll Node.catchAll putHandlers Node.handlers (fun _ _ => rfl) (fun _ _ => rfl)
          (fun _ _ _ => rfl) _ _ t
      | cons q qs =>
        cases q with
        | concrete s2 =>
          rw [registerAux_catchAll_fun nm1 ps m1 h1, registerAux_concrete_fun s2 qs m2 h2]
          exact updField_comm_cross putCatchAll Node.catchAll putConcrete Node.concrete (fun _ _ => rfl) (fun _ _ => rfl)
            (fun _ _ _ => rfl) _ _ t
        | wildcard nm2 =>
          rw [registerAux_catchAll_fun nm1 ps m1 h1, registerAux_wildcard_fun nm2 qs m2 h2]
          exact updField_comm_cross putCatchAll Node.catchAll putWildcard Node.wildcard (fun _ _ => rfl) (fun _ _ => rfl)
            (fun _ _ _ => rfl) _ _ t
        | catchAll nm2 =>
          rw [registerAux_catchAll_fun nm1 ps m1 h1, registerAux_catchAll_fun nm2 qs m2 h2]
          exact updField_comm_diag putCatchAll Node.catchAll (fun _ _ => rfl) (fun _ _ _ => rfl) _ _
            (fun slot => slotUpd_comm nm1 nm2 _ _ (fun c => ih qs m1 m2 h1 h2 c) slot) t

/-- Performing a list of registrations in any permuted order yields the
same outcome on every starting router. -/
theorem regList_perm {H : Type} [DecidableEq H] {l l' : List (Reg H)} (hp : l.Perm l') :
    ∀ t, regList l t = regList l' t := by
  induction hp with
  | nil => intro t; rfl
  | cons x hl ih =>
    intro t
    simp only [regList]
    cases hx : regOne x t with
    | error e => rfl
    | ok t' => exact ih t'
  | swap x y l =>
    intro t
    have hcomm : andThen (regOne y t) (regOne x) = andThen (regOne x t) (regOne y) :=
      registerAux_comm y.pats x.pats y.method x.method y.handler x.handler t
    simp only [regList]
    rcases r1 : regOne y t with e1 | t1
    · rcases r2 : regOne x t with e2 | t2
      · rfl
      · simp only [andThen, r1, r2] at hcomm
        simp [← hcomm]
    · rcases r2 : regOne x t with e2 | t2
      · simp only [andThen, r1, r2] at hcomm
        simp [hcomm]
      · simp only [andThen, r1, r2] at hcomm
        simp [hcomm]
  | trans hab hbc ih1 ih2 =>
    intro t
    exact (ih1 t).trans (ih2 t)

/-- C5: permuting the order of route registrations never changes the
outcome — if both orders build a router from the empty one, the routers are
equal, so every request path and method routes to the same handler with the
same params or fails with the same condition. -/
theorem claim_C5 {H : Type} [DecidableEq H] (l l' : List (Reg H)) (hp : l.Perm l')
    (t1 t2 : Node H) (hr1 : regList l emptyNode = .ok t1)
    (hr2 : regList l' emptyNode = .ok t2) :
    t1 = t2 ∧ ∀ (path : String) (m : Method), routePath t1 path m = routePath t2 path m := by
  have h := regList_perm hp (emptyNode (H := H))
  rw [hr1, hr2] at h
  cases h
  exact ⟨rfl, fun _ _ => rfl⟩

/-- C5 witness: registering `GET /x` then `POST /x` and the reverse order
produce the identical router. -/
theorem claim_C5_witness :
    treeAB = treeAB
    ∧ ∀ (path : String) (m : Method), routePath treeAB path m = routePath treeAB path m :=
  claim_C5 [regA, regB] [regB, regA] (List.Perm.swap regB regA []) treeAB treeAB
    (by rfl) (by rfl)

end Tide
